import Mathlib

/-!
Verification development for the cgroup-management core of libvzctl
(`src/lib/cgroup.c`).

Each section shallowly embeds one function of the source file as an
executable Lean definition and proves the specified property about it.
Outcomes of external system calls (`unlinkat`, `mount`, `read`, ...) and of
external collaborators (bitmap primitives, the mount-table scan, ...) are
passed to the embeddings as explicit inputs, so a run of the embedding is
the deterministic trace the C function produces for those outcomes.
-/

namespace Cgroup

/-! ## Resource limit accessors: CPU rate (`cg_env_set_cpulimit` / `cg_env_get_cpulimit`) -/

/-- Embedding of `cg_env_set_cpulimit` (cgroup.c:650-655):
`unsigned long limit1024 = limit * 1024 / 100;` followed by
`cg_set_ul(..., "cpu.rate", limit1024)`.  The C expression is computed in
`float` arithmetic and then truncated toward zero by the conversion to
`unsigned long`; we model the value as an exact rational and take the floor,
which agrees with the C computation whenever the float arithmetic is exact or
its rounding error does not cross an integer boundary (true at every input
used in the theorems below, e.g. `50 * 1024 / 100 = 512` exactly).  The
returned number is the decimal value written to the `cpu.rate` control file. -/
def cg_env_set_cpulimit (limit : ℚ) : ℤ := ⌊limit * 1024 / 100⌋

/-- Embedding of `cg_env_get_cpulimit` (cgroup.c:657-669): reads `cpu.rate`
into `unsigned long limit1024` and computes `*limit = limit1024 * 100 / 1024;`
— an `unsigned long` (integer, truncating) division whose result is then
converted to `float`.  The argument is the stored `cpu.rate` value. -/
def cg_env_get_cpulimit (limit1024 : ℕ) : ℕ := limit1024 * 100 / 1024

/-! ## Tree removal: `rmdir_retry` -/

/-- Outcome of one `unlinkat(fd, name, AT_REMOVEDIR)` attempt inside
`rmdir_retry` (cgroup.c:376): success, failure with `errno == EBUSY`, or
failure with any other `errno`. -/
inductive RmAttempt where
  | ok
  | ebusy
  | other
deriving DecidableEq

/-- Sleep duration (µs) performed after the `k`-th (0-based) `EBUSY` attempt
of `rmdir_retry`: `wait` starts at 10000 µs, doubles each attempt, and is
capped at `maxwait = 500000` µs (cgroup.c:371-384). -/
def cgSleep (k : ℕ) : ℕ := min (10000 * 2 ^ k) 500000

/-- Cumulative sleep (µs) after the first `k` `EBUSY` attempts of
`rmdir_retry`. -/
def cgSleepSum : ℕ → ℕ
  | 0 => 0
  | k + 1 => cgSleepSum k + cgSleep k

/-- Embedding of the `do`/`while` loop of `rmdir_retry` (cgroup.c:368-388).
`f k` is the outcome of the `unlinkat` call on attempt `k`; `total` and
`wait` are the loop variables of the C code (`timeout = 30 * 1000000`,
`maxwait = 500000`); `sl` accumulates the performed sleeps in reverse.
Returns `(return code, number of attempts made, sleeps performed in order)`.
The C loop needs no fuel (each retry adds at least 10000 µs to `total`,
which is bounded by the 30 s budget); the fuel is only to make the Lean
recursion structural, and `-2` marks fuel exhaustion, proven unreachable for
the fuel used by `rmdir_retry` below. -/
def rmdirRetryGo (f : ℕ → RmAttempt) :
    ℕ → ℕ → ℕ → ℕ → List ℕ → ℤ × ℕ × List ℕ
  | 0, k, _, _, sl => (-2, k, sl.reverse)
  | fuel + 1, k, total, wait, sl =>
    match f k with
    | .ok => (0, k + 1, sl.reverse)
    | .other => (-1, k + 1, sl.reverse)
    | .ebusy =>
      let total2 := total + wait
      let wait2 := if wait * 2 > 500000 then 500000 else wait * 2
      if total2 < 30000000 then rmdirRetryGo f fuel (k + 1) total2 wait2 (wait :: sl)
      else (-1, k + 1, (wait :: sl).reverse)

/-- Embedding of `rmdir_retry` (cgroup.c:368-388): the loop starting from
`total = 0`, `wait = 10000`.  Fuel 3001 suffices: every retry adds at least
10000 µs to `total` and the loop stops once `total` reaches 30000000 µs. -/
def rmdir_retry (f : ℕ → RmAttempt) : ℤ × ℕ × List ℕ :=
  rmdirRetryGo f 3001 0 0 10000 []

lemma le_cgSleep (k : ℕ) : 10000 ≤ cgSleep k := by
  have h1 : (1 : ℕ) ≤ 2 ^ k := Nat.one_le_two_pow
  have : 10000 * 1 ≤ 10000 * 2 ^ k := Nat.mul_le_mul_left 10000 h1
  simp only [cgSleep]
  omega

lemma cgSleep_succ (k : ℕ) :
    (if cgSleep k * 2 > 500000 then 500000 else cgSleep k * 2) = cgSleep (k + 1) := by
  simp only [cgSleep, pow_succ, ← Nat.mul_assoc]
  split <;> omega

lemma cgSleepSum_add (j d : ℕ) : cgSleepSum j ≤ cgSleepSum (j + d) := by
  induction d with
  | zero => exact Nat.le_refl _
  | succ d ih =>
    have : j + (d + 1) = (j + d) + 1 := rfl
    rw [this, cgSleepSum]
    exact Nat.le_trans ih (Nat.le_add_right _ _)

lemma cgSleepSum_mono {j k : ℕ} (h : j ≤ k) : cgSleepSum j ≤ cgSleepSum k := by
  obtain ⟨d, rfl⟩ := Nat.exists_eq_add_of_le h
  exact cgSleepSum_add j d

lemma sum_range_cgSleep (n : ℕ) : ((List.range n).map cgSleep).sum = cgSleepSum n := by
  induction n with
  | zero => rfl
  | succ n ih =>
    rw [List.range_succ, List.map_append, List.sum_append, cgSleepSum]
    simp [ih]

lemma rmdirRetryGo_spec (f : ℕ → RmAttempt) :
    ∀ fuel k c n sl,
    30000000 ≤ cgSleepSum k + 10000 * fuel →
    cgSleepSum k < 30000000 →
    rmdirRetryGo f fuel k (cgSleepSum k) (cgSleep k)
      (((List.range k).map cgSleep).reverse) = (c, n, sl) →
    sl = (List.range sl.length).map cgSleep
    ∧ k + 1 ≤ n
    ∧ (∀ j, j < sl.length → j ≠ 0 → cgSleepSum j < 30000000)
    ∧ (∀ i, k ≤ i → i + 1 < n → f i = RmAttempt.ebusy)
    ∧ (c = 0 ↔ f (n - 1) = RmAttempt.ok)
    ∧ (f (n - 1) = RmAttempt.other → c = -1 ∧ sl.length = n - 1)
    ∧ (f (n - 1) = RmAttempt.ebusy → c = -1 ∧ 30000000 ≤ cgSleepSum sl.length) := by
  intro fuel
  induction fuel with
  | zero =>
    intro k c n sl hfuel hlt _
    omega
  | succ fuel ih =>
    intro k c n sl hfuel hlt hrun
    rw [rmdirRetryGo] at hrun
    cases hfk : f k with
    | ok =>
      rw [hfk] at hrun
      simp only [Prod.mk.injEq] at hrun
      obtain ⟨hc, hn, hsl⟩ := hrun
      subst hc hn
      have hslv : sl = (List.range k).map cgSleep := by
        rw [← hsl, List.reverse_reverse]
      have hlen : sl.length = k := by simp [hslv]
      refine ⟨by simp [hslv], Nat.le_refl _, ?_, ?_, ?_, ?_, ?_⟩
      · intro j hj _
        exact Nat.lt_of_le_of_lt (cgSleepSum_mono (by omega)) hlt
      · intro i hki hi
        omega
      · simp [hfk]
      · simp [hfk]
      · simp [hfk]
    | other =>
      rw [hfk] at hrun
      simp only [Prod.mk.injEq] at hrun
      obtain ⟨hc, hn, hsl⟩ := hrun
      subst hc hn
      have hslv : sl = (List.range k).map cgSleep := by
        rw [← hsl, List.reverse_reverse]
      have hlen : sl.length = k := by simp [hslv]
      refine ⟨by simp [hslv], Nat.le_refl _, ?_, ?_, ?_, ?_, ?_⟩
      · intro j hj _
        exact Nat.lt_of_le_of_lt (cgSleepSum_mono (by omega)) hlt
      · intro i hki hi
        omega
      · simp [hfk]
      · simp [hfk, hlen]
      · simp [hfk]
    | ebusy =>
      rw [hfk] at hrun
      simp only at hrun
      rw [cgSleep_succ k] at hrun
      have htot : cgSleepSum k + cgSleep k = cgSleepSum (k + 1) := rfl
      rw [htot] at hrun
      have hlist : cgSleep k :: ((List.range k).map cgSleep).reverse
          = ((List.range (k + 1)).map cgSleep).reverse := by
        simp [List.range_succ]
      rw [hlist] at hrun
      by_cases hb : cgSleepSum (k + 1) < 30000000
      · rw [if_pos hb] at hrun
        have hfuel2 : 30000000 ≤ cgSleepSum (k + 1) + 10000 * fuel := by
          have h10 : 10000 ≤ cgSleep k := le_cgSleep k
          have : cgSleepSum (k + 1) = cgSleepSum k + cgSleep k := rfl
          omega
        obtain ⟨p1, p2, p3, p4, p5, p6, p7⟩ := ih (k + 1) c n sl hfuel2 hb hrun
        refine ⟨p1, by omega, p3, ?_, p5, p6, p7⟩
        intro i hki hi
        rcases Nat.eq_or_lt_of_le hki with heq | hlt2
        · rw [← heq]; exact hfk
        · exact p4 i hlt2 hi
      · rw [if_neg hb] at hrun
        simp only [Prod.mk.injEq] at hrun
        obtain ⟨hc, hn, hsl⟩ := hrun
        subst hc hn
        have hslv : sl = (List.range (k + 1)).map cgSleep := by
          rw [← hsl, List.reverse_reverse]
        have hlen : sl.length = k + 1 := by simp [hslv]
        refine ⟨by simp [hslv], Nat.le_refl _, ?_, ?_, ?_, ?_, ?_⟩
        · intro j hj _
          rw [hlen] at hj
          exact Nat.lt_of_le_of_lt (cgSleepSum_mono (by omega)) hlt
        · intro i hki hi
          omega
        · simp [hfk]
        · simp [hfk]
        · intro _
          refine ⟨rfl, ?_⟩
          rw [hlen]
          omega

/-- C3: for every sequence of removal-attempt outcomes, `rmdir_retry`
sleeps 10 ms after the first `EBUSY`, doubling each attempt and capping each
sleep at 500 ms (the performed sleeps are exactly `cgSleep 0, cgSleep 1, ...`);
a retry beyond the first happens only while the cumulative sleep is below the
30-second budget; every attempt before the last returned `EBUSY`; the result
is `0` exactly when the final attempt succeeded; a non-`EBUSY` error aborts
immediately (no sleep for that attempt) and fatally; and if every attempt
returns `EBUSY` the call fails with at least 30 s of cumulative sleep. -/
theorem rmdir_retry_spec (f : ℕ → RmAttempt) (c : ℤ) (n : ℕ) (sl : List ℕ)
    (h : rmdir_retry f = (c, n, sl)) :
    sl = (List.range sl.length).map cgSleep
    ∧ (∀ j, j < sl.length → j ≠ 0 → cgSleepSum j < 30000000)
    ∧ (∀ i, i + 1 < n → f i = RmAttempt.ebusy)
    ∧ (c = 0 ↔ f (n - 1) = RmAttempt.ok)
    ∧ (f (n - 1) = RmAttempt.other → c = -1 ∧ sl.length = n - 1)
    ∧ (f (n - 1) = RmAttempt.ebusy → c = -1 ∧ 30000000 ≤ sl.sum)
    ∧ ((∀ i, f i = RmAttempt.ebusy) → c = -1 ∧ 30000000 ≤ sl.sum) := by
  have h0 : rmdirRetryGo f 3001 0 (cgSleepSum 0) (cgSleep 0)
      (((List.range 0).map cgSleep).reverse) = (c, n, sl) := by
    have e1 : cgSleepSum 0 = 0 := rfl
    have e2 : cgSleep 0 = 10000 := by decide
    rw [e1, e2]
    simpa [rmdir_retry] using h
  obtain ⟨p1, p2, p3, p4, p5, p6, p7⟩ :=
    rmdirRetryGo_spec f 3001 0 c n sl (by norm_num) (by norm_num [cgSleepSum]) h0
  have hsum : sl.sum = cgSleepSum sl.length := by
    conv_lhs => rw [p1]
    exact sum_range_cgSleep _
  refine ⟨p1, p3, fun i hi => p4 i (Nat.zero_le i) hi, p5, p6, ?_, ?_⟩
  · intro hlast
    obtain ⟨hc, hs⟩ := p7 hlast
    exact ⟨hc, by rw [hsum]; exact hs⟩
  · intro hall
    obtain ⟨hc, hs⟩ := p7 (hall (n - 1))
    exact ⟨hc, by rw [hsum]; exact hs⟩

/-- Attempt sequence used by the witness: `EBUSY` three times, then success
(the testable-property example of spec §8). -/
def rmdirEx3 : ℕ → RmAttempt := fun i => if i < 3 then RmAttempt.ebusy else RmAttempt.ok

/-- Witness for C3: on the three-`EBUSY`-then-success sequence the call
returns 0 after sleeps 10 ms, 20 ms, 40 ms (cumulative 70 ms, far below the
30 s budget). -/
theorem rmdir_retry_spec_witness :
    [10000, 20000, 40000] = (List.range 3).map cgSleep
    ∧ ((0 : ℤ) = 0 ↔ rmdirEx3 3 = RmAttempt.ok) := by
  have h := rmdir_retry_spec rmdirEx3 0 4 [10000, 20000, 40000] (by decide)
  exact ⟨by simpa using h.1, by simpa using h.2.2.2.1⟩

/-- C5: the CPU rate limit round-trips at 50 %: setting 50 stores
`floor(50*1024/100) = 512` in `cpu.rate`, and reading back 512 yields
`floor(512*100/1024) = 50`; both directions truncate rather than round
(setting 4 stores 40, not the rounded 41, since `4*1024/100 = 40.96`;
reading 1023 yields 99, not the rounded 100, since `1023*100/1024 = 99.9`). -/
theorem cpulimit_roundtrip :
    cg_env_set_cpulimit 50 = 512
    ∧ cg_env_get_cpulimit 512 = 50
    ∧ cg_env_get_cpulimit (Int.toNat (cg_env_set_cpulimit 50)) = 50
    ∧ cg_env_set_cpulimit 4 = 40
    ∧ cg_env_get_cpulimit 1023 = 99 := by
  have h50 : cg_env_set_cpulimit 50 = 512 := by
    rw [cg_env_set_cpulimit]
    norm_num
  have h4 : cg_env_set_cpulimit 4 = 40 := by
    rw [cg_env_set_cpulimit, Int.floor_eq_iff]
    norm_num
  refine ⟨h50, by norm_num [cg_env_get_cpulimit], ?_, h4, by norm_num [cg_env_get_cpulimit]⟩
  rw [h50]
  decide

/-! ## Hierarchy lifecycle: `cg_new_cgroup` (cgroup.c:557-580) -/

/-- Per-controller environment seen by `cg_new_cgroup` for one entry of
`cg_ctl_map`, in table order: `geterr` is `cg_get_ctl` returning `-1`
(mount-table scan failed), `absent` is `cg_get_ctl` returning a positive
value (no mount for this controller, the "skip non exists" path), and
`mounted e` is a resolved controller whose `cg_create`/`make_dir` call
returns 0 (`e = none`) or the error `e` (`e = some err`). -/
inductive CtlSpec where
  | geterr
  | absent
  | mounted (createErr : Option ℤ)
deriving DecidableEq

/-- Filesystem-visible action performed by the hierarchy lifecycle on the
cgroup directory of controller `i`: `cg_create` (mkdir) or `cg_destroy`
(subtree removal). -/
inductive CgEvent where
  | created (i : ℕ)
  | destroyed (i : ℕ)
deriving DecidableEq

/-- Events of the `err:` rollback of `cg_new_cgroup` (cgroup.c:575-577):
`for (i = i - 1; i >= 0; i--) cg_destroy(ctid, &cg_ctl_map[i]);` —
controllers `i-1` down to `0`, in reverse table order. -/
def rollbackEvents (i : ℕ) : List CgEvent :=
  ((List.range i).reverse).map CgEvent.destroyed

/-- Creation events produced by a run of the `cg_new_cgroup` loop over a
controller list whose first element has table index `i`: one `created`
event per resolved controller whose `cg_create` succeeds. -/
def createdEvts : List CtlSpec → ℕ → List CgEvent
  | [], _ => []
  | c :: rest, i =>
    (if c = CtlSpec.mounted none then [CgEvent.created i] else [])
      ++ createdEvts rest (i + 1)

/-- Embedding of the loop of `cg_new_cgroup` (cgroup.c:562-579) together
with its `err:` rollback. `i` is the table index of the first remaining
controller and `tr` the event trace so far, reversed.  On a `cg_get_ctl`
error the function returns `-1` after destroying controllers `i-1..0`; on a
`cg_create` error it returns that error after the same rollback; the
rollback return values are ignored by the C code, matching `rollbackEvents`
recording only the destroy actions. -/
def cgNewGo : List CtlSpec → ℕ → List CgEvent → ℤ × List CgEvent
  | [], _, tr => (0, tr.reverse)
  | c :: rest, i, tr =>
    match c with
    | .geterr => (-1, tr.reverse ++ rollbackEvents i)
    | .absent => cgNewGo rest (i + 1) tr
    | .mounted none => cgNewGo rest (i + 1) (CgEvent.created i :: tr)
    | .mounted (some e) => (e, tr.reverse ++ rollbackEvents i)

/-- Embedding of `cg_new_cgroup` (cgroup.c:557-580): run the loop from the
first controller of the table.  Returns the C return value and the trace of
create/destroy events, in order. -/
def cg_new_cgroup (ctls : List CtlSpec) : ℤ × List CgEvent := cgNewGo ctls 0 []

/-- Directories existing after an event trace, starting from `ds`: `created
i` adds controller `i`'s cgroup directory, `destroyed i` removes it
(`cg_destroy` of a never-created controller is a no-op). -/
def dirsAfter : List CgEvent → List ℕ → List ℕ
  | [], ds => ds
  | CgEvent.created i :: tr, ds => dirsAfter tr (ds ++ [i])
  | CgEvent.destroyed i :: tr, ds => dirsAfter tr (ds.filter (fun x => x ≠ i))

lemma cgNewGo_ok_prefix (x : CtlSpec) (rest : List CtlSpec) :
    ∀ (pre : List CtlSpec) (i : ℕ) (tr : List CgEvent),
    (∀ c ∈ pre, c = CtlSpec.absent ∨ c = CtlSpec.mounted none) →
    cgNewGo (pre ++ x :: rest) i tr
      = cgNewGo (x :: rest) (i + pre.length) ((createdEvts pre i).reverse ++ tr) := by
  intro pre
  induction pre with
  | nil => intro i tr _; simp [createdEvts]
  | cons c pre2 ih =>
    intro i tr hok
    rcases hok c (List.mem_cons_self c pre2) with hc | hc
    · subst hc
      rw [List.cons_append, cgNewGo, ih (i + 1) tr (fun d hd => hok d (List.mem_cons_of_mem _ hd))]
      have harith : i + 1 + pre2.length = i + (pre2.length + 1) := by omega
      simp [createdEvts, harith]
    · subst hc
      rw [List.cons_append, cgNewGo,
        ih (i + 1) (CgEvent.created i :: tr) (fun d hd => hok d (List.mem_cons_of_mem _ hd))]
      have harith : i + 1 + pre2.length = i + (pre2.length + 1) := by omega
      simp [createdEvts, harith]

lemma cgNewGo_all_ok :
    ∀ (l : List CtlSpec) (i : ℕ) (tr : List CgEvent),
    (∀ c ∈ l, c = CtlSpec.absent ∨ c = CtlSpec.mounted none) →
    cgNewGo l i tr = (0, tr.reverse ++ createdEvts l i) := by
  intro l
  induction l with
  | nil => intro i tr _; simp [cgNewGo, createdEvts]
  | cons c rest ih =>
    intro i tr hok
    rcases hok c (List.mem_cons_self c rest) with hc | hc
    · subst hc
      rw [cgNewGo, ih (i + 1) tr (fun d hd => hok d (List.mem_cons_of_mem _ hd))]
      simp [createdEvts]
    · subst hc
      rw [cgNewGo, ih (i + 1) (CgEvent.created i :: tr)
        (fun d hd => hok d (List.mem_cons_of_mem _ hd))]
      simp [createdEvts]

lemma dirsAfter_append (a b : List CgEvent) :
    ∀ ds, dirsAfter (a ++ b) ds = dirsAfter b (dirsAfter a ds) := by
  induction a with
  | nil => intro ds; rfl
  | cons e a2 ih =>
    intro ds
    cases e with
    | created i => rw [List.cons_append, dirsAfter, dirsAfter, ih]
    | destroyed i => rw [List.cons_append, dirsAfter, dirsAfter, ih]

lemma dirsAfter_createdEvts_mem :
    ∀ (pre : List CtlSpec) (i : ℕ) (ds : List ℕ) (x : ℕ),
    x ∈ dirsAfter (createdEvts pre i) ds → x ∈ ds ∨ (i ≤ x ∧ x < i + pre.length) := by
  intro pre
  induction pre with
  | nil => intro i ds x hx; exact Or.inl hx
  | cons c pre2 ih =>
    intro i ds x hx
    rw [createdEvts] at hx
    by_cases hc : c = CtlSpec.mounted none
    · rw [if_pos hc] at hx
      simp only [List.singleton_append, dirsAfter] at hx
      rcases ih (i + 1) (ds ++ [i]) x hx with hmem | hrange
      · rcases List.mem_append.mp hmem with h1 | h2
        · exact Or.inl h1
        · right
          have hxi : x = i := by simpa using h2
          simp only [List.length_cons]
          omega
      · right
        simp only [List.length_cons]
        omega
    · rw [if_neg hc] at hx
      simp only [List.nil_append] at hx
      rcases ih (i + 1) ds x hx with hmem | hrange
      · exact Or.inl hmem
      · right
        simp only [List.length_cons]
        omega

lemma dirsAfter_rollback :
    ∀ (n : ℕ) (l : List ℕ), (∀ x ∈ l, x < n) → dirsAfter (rollbackEvents n) l = [] := by
  intro n
  induction n with
  | zero =>
    intro l hl
    have : l = [] := by
      cases l with
      | nil => rfl
      | cons a l2 => exact absurd (hl a (List.mem_cons_self a l2)) (by omega)
    simp [rollbackEvents, dirsAfter, this]
  | succ n ih =>
    intro l hl
    have hre : rollbackEvents (n + 1) = CgEvent.destroyed n :: rollbackEvents n := by
      simp [rollbackEvents, List.range_succ]
    rw [hre, dirsAfter]
    refine ih _ ?_
    intro x hx
    have hx2 := List.mem_filter.mp hx
    have hxn : x ≠ n := by simpa using hx2.2
    have := hl x hx2.1
    omega

/-- C1: hierarchy creation is atomic by rollback.  For any prefix `pre` of
controllers that are either absent (mount unresolved, skipped without error)
or successfully created, if `cg_create` fails with error `e` on the next
controller (table index `pre.length`), then `cg_new_cgroup` performs exactly
the successful creations of `pre` followed by destruction of controllers
`pre.length - 1` down to `0` in reverse order, returns that first error `e`,
and no directory of the container remains afterwards.  Moreover a run over
only absent/successful controllers returns 0 with no destruction — an
unresolved mount is skipped and is not an error. -/
theorem cg_new_cgroup_rollback (pre rest : List CtlSpec) (e : ℤ)
    (hok : ∀ c ∈ pre, c = CtlSpec.absent ∨ c = CtlSpec.mounted none) :
    (cg_new_cgroup (pre ++ CtlSpec.mounted (some e) :: rest)
        = (e, createdEvts pre 0 ++ rollbackEvents pre.length)
      ∧ dirsAfter (cg_new_cgroup (pre ++ CtlSpec.mounted (some e) :: rest)).2 [] = [])
    ∧ (∀ l : List CtlSpec, (∀ c ∈ l, c = CtlSpec.absent ∨ c = CtlSpec.mounted none) →
        cg_new_cgroup l = (0, createdEvts l 0)) := by
  have hrun : cg_new_cgroup (pre ++ CtlSpec.mounted (some e) :: rest)
      = (e, createdEvts pre 0 ++ rollbackEvents pre.length) := by
    rw [cg_new_cgroup, cgNewGo_ok_prefix _ _ pre 0 [] hok, cgNewGo]
    simp
  refine ⟨⟨hrun, ?_⟩, ?_⟩
  · rw [hrun]
    simp only
    rw [dirsAfter_append]
    refine dirsAfter_rollback _ _ ?_
    intro x hx
    rcases dirsAfter_createdEvts_mem pre 0 [] x hx with hmem | hrange
    · simp at hmem
    · omega
  · intro l hl
    rw [cg_new_cgroup, cgNewGo_all_ok l 0 [] hl]
    simp

/-- Witness for C1: with controller 0 absent, controller 1 created, and
creation failing with error `-7` on controller 2, the run creates directory
1, then destroys 1 and 0 in reverse order, returns `-7`, and leaves no
directory. -/
theorem cg_new_cgroup_rollback_witness :
    cg_new_cgroup [CtlSpec.absent, CtlSpec.mounted none,
        CtlSpec.mounted (some (-7)), CtlSpec.mounted none]
      = (-7, createdEvts [CtlSpec.absent, CtlSpec.mounted none] 0 ++ rollbackEvents 2)
    ∧ dirsAfter (cg_new_cgroup [CtlSpec.absent, CtlSpec.mounted none,
        CtlSpec.mounted (some (-7)), CtlSpec.mounted none]).2 [] = [] := by
  have h := cg_new_cgroup_rollback [CtlSpec.absent, CtlSpec.mounted none]
    [CtlSpec.mounted none] (-7) (by decide)
  exact ⟨by simpa using h.1.1, by simpa using h.1.2⟩

/-! ## Hierarchy destruction: `cg_destroy_cgroup` (cgroup.c:582-595) -/

/-- Per-controller environment seen by `cg_destroy_cgroup`: `unresolved` is
`cg_get_ctl` returning nonzero (controller skipped by `if (rc) continue`);
`missing` is a resolved controller whose cgroup directory does not exist
(`rm_tree` opens it, gets `ENOENT` and returns 0, cgroup.c:453-455);
`present ok` is a resolved controller with an existing directory whose
`rm_tree` removal succeeds (`ok = true`) or fails (`ok = false`). -/
inductive DCtl where
  | unresolved
  | missing
  | present (rmOk : Bool)
deriving DecidableEq

/-- Embedding of `cg_destroy` (cgroup.c:511-524): 0 when the mount path is
unset or the directory is missing, `VZCTL_E_SYSTEM` (passed in as the
nonzero `esys`, since `vzerror.h` is outside the sources) when `rm_tree`
fails, 0 otherwise. -/
def cg_destroy (esys : ℕ) : DCtl → ℕ
  | DCtl.unresolved => 0
  | DCtl.missing => 0
  | DCtl.present ok => if ok then 0 else esys

/-- Table indices of the controllers on which `cg_destroy_cgroup` actually
invokes `cg_destroy`, i.e. every controller whose mount resolved, starting
at index `i`. -/
def mountedIdxs : List DCtl → ℕ → List ℕ
  | [], _ => []
  | c :: rest, i =>
    (if c = DCtl.unresolved then [] else [i]) ++ mountedIdxs rest (i + 1)

/-- Bitwise-or aggregate of the `cg_destroy` results of a controller list,
as accumulated by `ret |= cg_destroy(ctid, ctl)` (cgroup.c:592). -/
def orAll (esys : ℕ) : List DCtl → ℕ
  | [] => 0
  | c :: rest => cg_destroy esys c ||| orAll esys rest

/-- Embedding of the loop of `cg_destroy_cgroup` (cgroup.c:587-593): `i` is
the table index of the first remaining controller, `acc` the `ret`
accumulator, `tr` the reversed trace of controllers processed so far. -/
def cgDestroyGo (esys : ℕ) : List DCtl → ℕ → ℕ → List ℕ → ℕ × List ℕ
  | [], _, acc, tr => (acc, tr.reverse)
  | c :: rest, i, acc, tr =>
    if c = DCtl.unresolved then cgDestroyGo esys rest (i + 1) acc tr
    else cgDestroyGo esys rest (i + 1) (acc ||| cg_destroy esys c) (i :: tr)

/-- Embedding of `cg_destroy_cgroup` (cgroup.c:582-595).  Returns the C
return value and the trace of processed controller indices. -/
def cg_destroy_cgroup (esys : ℕ) (ctls : List DCtl) : ℕ × List ℕ :=
  cgDestroyGo esys ctls 0 0 []

lemma cgDestroyGo_eq (esys : ℕ) :
    ∀ (l : List DCtl) (i acc : ℕ) (tr : List ℕ),
    cgDestroyGo esys l i acc tr = (acc ||| orAll esys l, tr.reverse ++ mountedIdxs l i) := by
  intro l
  induction l with
  | nil => intro i acc tr; simp [cgDestroyGo, orAll, mountedIdxs]
  | cons c rest ih =>
    intro i acc tr
    rw [cgDestroyGo]
    by_cases hc : c = DCtl.unresolved
    · rw [if_pos hc, ih]
      subst hc
      simp [orAll, mountedIdxs, cg_destroy]
    · rw [if_neg hc, ih]
      simp [orAll, mountedIdxs, hc, Nat.lor_assoc]

lemma cg_destroy_zero_or (esys : ℕ) (c : DCtl) :
    cg_destroy esys c = 0 ∨ cg_destroy esys c = esys := by
  cases c with
  | unresolved => exact Or.inl rfl
  | missing => exact Or.inl rfl
  | present ok => cases ok <;> simp [cg_destroy]

lemma orAll_cases (esys : ℕ) : ∀ l : List DCtl, orAll esys l = 0 ∨ orAll esys l = esys := by
  intro l
  induction l with
  | nil => exact Or.inl rfl
  | cons c rest ih =>
    rw [orAll]
    rcases cg_destroy_zero_or esys c with h | h <;> rcases ih with h2 | h2 <;>
      rw [h, h2] <;> simp

lemma orAll_eq_zero (esys : ℕ) (hesys : esys ≠ 0) :
    ∀ l : List DCtl, orAll esys l = 0 ↔ ∀ c ∈ l, cg_destroy esys c = 0 := by
  intro l
  induction l with
  | nil => simp [orAll]
  | cons c rest ih =>
    rw [orAll]
    constructor
    · intro h
      rcases cg_destroy_zero_or esys c with hc | hc
      · rcases orAll_cases esys rest with hr | hr
        · intro d hd
          rcases List.mem_cons.mp hd with rfl | hd2
          · exact hc
          · exact (ih.mp hr) d hd2
        · rw [hc, hr] at h
          simp at h
          exact absurd h hesys
      · rw [hc] at h
        rcases orAll_cases esys rest with hr | hr <;> rw [hr] at h <;> simp at h <;>
          exact absurd h hesys
    · intro h
      rw [h c (List.mem_cons_self c rest)]
      simp
      exact ih.mpr (fun d hd => h d (List.mem_cons_of_mem _ hd))

/-- C6: hierarchy destruction is best-effort and maximally complete.  For
every controller table, `cg_destroy_cgroup` invokes `cg_destroy` on every
controller whose mount resolved — also after earlier failures — aggregates
the per-controller results by bitwise or into one result that is zero
exactly when every invoked destruction succeeded, skips controllers with an
unresolved mount, treats a missing directory as success, and hence returns 0
as a no-op on a never-created container (every directory missing or mount
unresolved). -/
theorem cg_destroy_cgroup_spec (esys : ℕ) (ctls : List DCtl) (hesys : esys ≠ 0) :
    (cg_destroy_cgroup esys ctls).2 = mountedIdxs ctls 0
    ∧ ((cg_destroy_cgroup esys ctls).1 = 0 ↔ ∀ c ∈ ctls, cg_destroy esys c = 0)
    ∧ ((∀ c ∈ ctls, c = DCtl.unresolved ∨ c = DCtl.missing) →
        cg_destroy_cgroup esys ctls = (0, mountedIdxs ctls 0)) := by
  have hrun : cg_destroy_cgroup esys ctls = (orAll esys ctls, mountedIdxs ctls 0) := by
    rw [cg_destroy_cgroup, cgDestroyGo_eq]
    simp
  refine ⟨by rw [hrun], ?_, ?_⟩
  · rw [hrun]
    exact orAll_eq_zero esys hesys ctls
  · intro h
    rw [hrun]
    have : orAll esys ctls = 0 := by
      rw [orAll_eq_zero esys hesys ctls]
      intro c hc
      rcases h c hc with rfl | rfl <;> rfl
    rw [this]

/-- Witness for C6: with `VZCTL_E_SYSTEM = 5`, a table whose third
controller fails removal still processes the fourth one (trace `[0, 2, 3]`,
skipping the unresolved index 1), and destruction over only
missing/unresolved entries — a never-created container — returns 0. -/
theorem cg_destroy_cgroup_spec_witness :
    (cg_destroy_cgroup 5 [DCtl.present true, DCtl.unresolved, DCtl.present false,
        DCtl.missing]).2
      = mountedIdxs [DCtl.present true, DCtl.unresolved, DCtl.present false, DCtl.missing] 0
    ∧ cg_destroy_cgroup 5 [DCtl.unresolved, DCtl.missing]
      = (0, mountedIdxs [DCtl.unresolved, DCtl.missing] 0) := by
  refine ⟨(cg_destroy_cgroup_spec 5 _ (by decide)).1, ?_⟩
  exact (cg_destroy_cgroup_spec 5 _ (by decide)).2.2 (by decide)

/-! ## CPU/NUMA mask accessor: `cg_env_set_mask` (cgroup.c:676-717) -/

/-- Result of `cg_env_set_mask`: either the mask value actually written to
`cpuset.cpus`/`cpuset.mems` (always the intersection), or one of the error
paths of the C function.  `emptyInter` carries the data of the diagnostic
`"Unable to set %s value %s, supported range: %s"`: the requested mask
(printed via `bitmap_snprintf(val, ..., cpumask, ...)`) and the currently
available mask (the `buf` just read from the kernel). -/
inductive MaskRes where
  | ok (written : ℕ)
  | getFail
  | nomem
  | parseFail
  | emptyInter (requested available : ℕ)
  | writeFail
deriving DecidableEq

/-- Embedding of `cg_env_set_mask` (cgroup.c:676-717).  `getRes` is the
outcome of reading the kernel's currently permitted mask from the cgroup
root (`cg_get_param("", CG_CPUSET, "cpuset.<name>", ...) < 0` is `none`)
combined with `vzctl2_bitmap_parse` of the returned text (`some none` is a
parse failure, `some (some avail)` the parsed mask); `allocOk` is the
`malloc`, `writeOk` the `cg_set_param` write-back.  Masks are finite bitsets
encoded as naturals, `bitmap_and` is bitwise and, and the C zero test `if
(!bitmap_and(...))` is the emptiness test of the intersection. -/
def cg_env_set_mask (name : String) (getRes : Option (Option ℕ)) (allocOk : Bool)
    (cpumask : ℕ) (writeOk : Bool) : MaskRes :=
  match getRes with
  | none => MaskRes.getFail
  | some parsed =>
    if allocOk then
      match parsed with
      | none => MaskRes.parseFail
      | some avail =>
        let inter := avail &&& cpumask
        if inter = 0 then MaskRes.emptyInter cpumask avail
        else if writeOk then MaskRes.ok inter else MaskRes.writeFail
    else MaskRes.nomem

/-- Embedding of `cg_env_set_cpumask` (cgroup.c:719-722). -/
def cg_env_set_cpumask (getRes : Option (Option ℕ)) (allocOk : Bool) (cpumask : ℕ)
    (writeOk : Bool) : MaskRes :=
  cg_env_set_mask "cpus" getRes allocOk cpumask writeOk

/-- Embedding of `cg_env_set_nodemask` (cgroup.c:724-727). -/
def cg_env_set_nodemask (getRes : Option (Option ℕ)) (allocOk : Bool) (nodemask : ℕ)
    (writeOk : Bool) : MaskRes :=
  cg_env_set_mask "mems" getRes allocOk nodemask writeOk

/-- C4: the mask accessor reads the kernel's currently permitted mask,
intersects it with the request, and requires the intersection non-empty: on
success it writes back the intersection (not the raw request), and an empty
intersection is a configuration error whose diagnostic carries the currently
available mask.  `cg_env_set_cpumask` and `cg_env_set_nodemask` are exactly
this accessor for `cpus` and `mems`. -/
theorem cg_env_set_mask_spec (name : String) (avail cpumask : ℕ) (writeOk : Bool) :
    (avail &&& cpumask ≠ 0 → writeOk = true →
      cg_env_set_mask name (some (some avail)) true cpumask writeOk
        = MaskRes.ok (avail &&& cpumask))
    ∧ (avail &&& cpumask = 0 →
      cg_env_set_mask name (some (some avail)) true cpumask writeOk
        = MaskRes.emptyInter cpumask avail)
    ∧ (∀ g a w, cg_env_set_cpumask g a cpumask w = cg_env_set_mask "cpus" g a cpumask w)
    ∧ (∀ g a w, cg_env_set_nodemask g a cpumask w = cg_env_set_mask "mems" g a cpumask w) := by
  refine ⟨?_, ?_, fun g a w => rfl, fun g a w => rfl⟩
  · intro hne hw
    subst hw
    simp [cg_env_set_mask, hne]
  · intro hz
    simp [cg_env_set_mask, hz]

/-- Witness for C4 (the examples of spec §8): requested `{0,1,2}` (= 7)
against available `{1,2,3}` (= 14) is auto-corrected to the intersection
`{1,2}` (= 6) and succeeds; requested `{5}` (= 32) against available 14
fails with a diagnostic naming the available mask 14. -/
theorem cg_env_set_mask_spec_witness :
    cg_env_set_mask "cpus" (some (some 14)) true 7 true = MaskRes.ok 6
    ∧ cg_env_set_mask "cpus" (some (some 14)) true 32 true = MaskRes.emptyInter 32 14 := by
  have h1 := (cg_env_set_mask_spec "cpus" 14 7 true).1 (by decide) rfl
  have h2 := (cg_env_set_mask_spec "cpus" 14 32 true).2.1 (by decide)
  refine ⟨?_, h2⟩
  rw [h1]
  decide

/-! ## Freezer state machine: `cg_set_freezer_state` (cgroup.c:1218-1242) -/

/-- Embedding of the polling loop of `cg_set_freezer_state`
(cgroup.c:1229-1239).  `reads k` is the outcome of the `k`-th
`cg_get_param(..., "freezer.state", ...)` (an `Except.error e` is a nonzero
return `e`, immediately propagated; `Except.ok buf` the state text read).
The comparison is `strncmp(buf, state, strlen(state)) == 0`, i.e. the bytes
of `state` are a prefix of `buf`, modeled on the character lists.  Returns
`some (code, k)` where `k` counts the `sleep(1)` calls performed before
returning, or `none` when the loop has not returned within `fuel` polls —
the loop itself has no timeout. -/
def freezerPoll (reads : ℕ → Except ℤ String) (state : String) :
    ℕ → ℕ → Option (ℤ × ℕ)
  | _, 0 => none
  | k, fuel + 1 =>
    match reads k with
    | Except.error e => some (e, k)
    | Except.ok buf =>
      if state.data.isPrefixOf buf.data then some (0, k)
      else freezerPoll reads state (k + 1) fuel

/-- Embedding of `cg_set_freezer_state` (cgroup.c:1218-1242): write the
target state (`writeRes` is the `cg_set_param` return, nonzero returned
immediately), then poll once per second until the read state has the target
as a prefix. -/
def cg_set_freezer_state (writeRes : ℤ) (reads : ℕ → Except ℤ String)
    (state : String) (fuel : ℕ) : Option (ℤ × ℕ) :=
  if writeRes ≠ 0 then some (writeRes, 0) else freezerPoll reads state 0 fuel

lemma freezerPoll_sound (reads : ℕ → Except ℤ String) (state : String)
    (hreads : ∀ k e, reads k = Except.error e → e ≠ 0) :
    ∀ fuel k0 c k, freezerPoll reads state k0 fuel = some (c, k) →
    (c = 0 → ∃ buf, reads k = Except.ok buf ∧ state.data.isPrefixOf buf.data = true)
    ∧ (∀ j, k0 ≤ j → j < k → ∃ buf, reads j = Except.ok buf
        ∧ state.data.isPrefixOf buf.data = false)
    ∧ k0 ≤ k
    ∧ (c ≠ 0 → ∃ e, reads k = Except.error e ∧ c = e) := by
  intro fuel
  induction fuel with
  | zero => intro k0 c k h; exact absurd h (by simp [freezerPoll])
  | succ fuel ih =>
    intro k0 c k h
    rw [freezerPoll] at h
    cases hr : reads k0 with
    | error e =>
      rw [hr] at h
      simp only [Option.some.injEq, Prod.mk.injEq] at h
      obtain ⟨rfl, rfl⟩ := h
      refine ⟨?_, ?_, Nat.le_refl _, ?_⟩
      · intro hc0
        subst hc0
        exact absurd rfl (hreads k0 0 hr)
      · intro j h1 h2; omega
      · intro _; exact ⟨e, hr, rfl⟩
    | ok buf =>
      rw [hr] at h
      dsimp only at h
      by_cases hp : state.data.isPrefixOf buf.data
      · rw [if_pos hp] at h
        simp only [Option.some.injEq, Prod.mk.injEq] at h
        obtain ⟨rfl, rfl⟩ := h
        refine ⟨fun _ => ⟨buf, hr, by simpa using hp⟩, ?_, Nat.le_refl _, ?_⟩
        · intro j h1 h2; omega
        · intro hc; exact absurd rfl hc
      · rw [if_neg hp] at h
        obtain ⟨p1, p2, p3, p4⟩ := ih (k0 + 1) c k h
        refine ⟨p1, ?_, by omega, p4⟩
        intro j h1 h2
        rcases Nat.eq_or_lt_of_le h1 with rfl | hlt
        · exact ⟨buf, hr, by simp only [Bool.not_eq_true] at hp; exact hp⟩
        · exact p2 j hlt h2

lemma freezerPoll_none (reads : ℕ → Except ℤ String) (state : String)
    (hall : ∀ k, ∃ buf, reads k = Except.ok buf ∧ state.data.isPrefixOf buf.data = false) :
    ∀ fuel k0, freezerPoll reads state k0 fuel = none := by
  intro fuel
  induction fuel with
  | zero => intro k0; rfl
  | succ fuel ih =>
    intro k0
    obtain ⟨buf, hr, hp⟩ := hall k0
    rw [freezerPoll, hr]
    dsimp only
    rw [if_neg (by simp [hp])]
    exact ih (k0 + 1)

/-- C8: the freezer transition writes the target state (a write failure is
returned immediately), then polls the current state once per second with a
prefix comparison and no internal timeout: it returns 0 only when some poll
converged (reads the target as a prefix) after every earlier poll read a
non-matching state — the returned count being the number of one-second
sleeps — and in particular, when the very first poll already reads the
target state (e.g. freezing an already-frozen container) it returns success
with zero sleeps; if no poll ever matches, the loop never returns, for any
poll budget. -/
theorem cg_set_freezer_state_spec (writeRes : ℤ) (reads : ℕ → Except ℤ String)
    (state : String) (fuel : ℕ)
    (hreads : ∀ k e, reads k = Except.error e → e ≠ 0) :
    (writeRes ≠ 0 → cg_set_freezer_state writeRes reads state fuel = some (writeRes, 0))
    ∧ (∀ buf, reads 0 = Except.ok buf → state.data.isPrefixOf buf.data = true → 1 ≤ fuel →
        cg_set_freezer_state 0 reads state fuel = some (0, 0))
    ∧ (∀ c k, cg_set_freezer_state 0 reads state fuel = some (c, k) → c = 0 →
        (∃ buf, reads k = Except.ok buf ∧ state.data.isPrefixOf buf.data = true)
        ∧ ∀ j, j < k → ∃ buf, reads j = Except.ok buf
            ∧ state.data.isPrefixOf buf.data = false)
    ∧ ((∀ k, ∃ buf, reads k = Except.ok buf ∧ state.data.isPrefixOf buf.data = false) →
        cg_set_freezer_state 0 reads state fuel = none) := by
  refine ⟨?_, ?_, ?_, ?_⟩
  · intro hw
    simp [cg_set_freezer_state, hw]
  · intro buf h0 hp hf
    obtain ⟨f2, rfl⟩ : ∃ f2, fuel = f2 + 1 := ⟨fuel - 1, by omega⟩
    rw [cg_set_freezer_state, if_neg (by simp), freezerPoll, h0]
    dsimp only
    rw [if_pos hp]
  · intro c k hrun hc0
    rw [cg_set_freezer_state, if_neg (by simp)] at hrun
    obtain ⟨p1, p2, _, _⟩ := freezerPoll_sound reads state hreads fuel 0 c k hrun
    exact ⟨p1 hc0, fun j hj => p2 j (Nat.zero_le j) hj⟩
  · intro hall
    rw [cg_set_freezer_state, if_neg (by simp)]
    exact freezerPoll_none reads state hall fuel 0

/-- Witness for C8: freezing to `FROZEN` while the state already reads
`FROZEN` returns success on the first poll with zero sleeps. -/
theorem cg_set_freezer_state_spec_witness :
    cg_set_freezer_state 0 (fun _ => Except.ok "FROZEN") "FROZEN" 1 = some (0, 0) := by
  have h := (cg_set_freezer_state_spec 0 (fun _ => Except.ok "FROZEN") "FROZEN" 1
    (fun k e he => absurd he (by simp))).2.1
  exact h "FROZEN" rfl (by decide) (by omega)

/-! ## Parameter read: `cg_read` (cgroup.c:213-232) -/

/-- Result of the embedded `cg_read`: an error return (`-errno`), an
out-of-bounds buffer access (undefined behavior in the C code; the index
into `out` that gets read is recorded), or the NUL-terminated buffer content
after newline stripping. -/
inductive CgReadRes where
  | err (e : ℤ)
  | oobAccess (idx : ℤ)
  | ok (out : List Char)
deriving DecidableEq

/-- Embedding of `cg_read` (cgroup.c:213-232).  `openErr` is `some errno`
when `open` fails; `readRes` is the outcome of `read(fd, out, size-1)` — an
errno on failure, otherwise the `r` bytes read (`r ≤ size - 1`).  The C
code then evaluates `out[r-1]` unconditionally: for `r = 0` this reads the
byte at index `-1`, before the buffer, which the embedding makes explicit
as `oobAccess (-1)` instead of picking an arbitrary value; for `r ≥ 1` it
strips one trailing newline if present and NUL-terminates (both accesses
`out[r-1]` and `out[r]` are then inside the `size`-byte buffer since
`r ≤ size - 1`). -/
def cg_read (openErr : Option ℕ) (readRes : Except ℕ (List Char)) : CgReadRes :=
  match openErr with
  | some e => CgReadRes.err (-(e : ℤ))
  | none =>
    match readRes with
    | Except.error e => CgReadRes.err (-(e : ℤ))
    | Except.ok content =>
      if content.length = 0 then CgReadRes.oobAccess (-1)
      else if content.getLast? = some (Char.ofNat 10) then CgReadRes.ok content.dropLast
      else CgReadRes.ok content

/-- C9 (code bug): on a successful open and a `read` that returns zero
bytes (an empty control file), `cg_read` evaluates `out[r-1] = out[-1]`,
an access at index `-1`, strictly before the buffer — not within bounds as
the claim states.  For any non-empty read the function indeed strips
exactly one trailing newline and stays in bounds. -/
theorem cg_read_empty_oob :
    cg_read none (Except.ok []) = CgReadRes.oobAccess (-1)
    ∧ (-1 : ℤ) < 0
    ∧ cg_read none (Except.ok ['o', 'n', Char.ofNat 10]) = CgReadRes.ok ['o', 'n']
    ∧ cg_read none (Except.ok ['o', 'n']) = CgReadRes.ok ['o', 'n'] := by
  refine ⟨rfl, by norm_num, by decide, by decide⟩

/-! ## Descent scan: `goto_next_dir` (cgroup.c:395-442) -/

/-- Outcome of the `fstatat(*fd, name, &st, AT_SYMLINK_NOFOLLOW)` call on
one directory entry: success on a directory, success on a non-directory,
failure with `ENOENT` (entry vanished), or failure with another errno. -/
inductive FstatRes where
  | okDir
  | okNonDir
  | enoent
  | othererr
deriving DecidableEq

/-- Outcome of the `openat(*fd, name, O_DIRECTORY)` call on one entry. -/
inductive OpenRes where
  | opened
  | enoent
  | othererr
deriving DecidableEq

/-- One directory entry yielded by `readdir`, together with the outcomes the
kernel would give for the two system calls `goto_next_dir` may make on it. -/
structure DEnt where
  name : String
  fstatRes : FstatRes
  openRes : OpenRes
deriving DecidableEq

/-- Result of the `goto_next_dir` scan: descend into a subdirectory, report
that no subdirectory remains (return 1), or abort with an error (return
-1). -/
inductive GotoRes where
  | descended (name : String)
  | nodirs
  | err
deriving DecidableEq

/-- One iteration of the `readdir` loop body of `goto_next_dir`
(cgroup.c:407-438).  `stDir` is the directory bit of the `struct stat st`
local, which the C code does NOT update when `fstatat` fails with `ENOENT`:
the `if (fstatat(...) && errno != ENOENT)` guard falls through to
`S_ISDIR(st.st_mode)` with the stale value, so the flag is threaded through
the scan.  Returns `Sum.inl st2` when the loop continues with stale flag
`st2`, or `Sum.inr r` when the function returns `r`: a successful `openat`
descends, an `openat` `ENOENT` skips the entry (`continue`), any other
`openat` failure aborts; an `fstatat` failure with `errno != ENOENT` logs
and skips the entry. -/
def gotoStep (stDir : Bool) (e : DEnt) : Bool ⊕ GotoRes :=
  if e.name = "." ∨ e.name = ".." then Sum.inl stDir
  else
    match e.fstatRes with
    | FstatRes.othererr => Sum.inl stDir
    | FstatRes.okNonDir => Sum.inl false
    | FstatRes.okDir =>
      match e.openRes with
      | OpenRes.opened => Sum.inr (GotoRes.descended e.name)
      | OpenRes.enoent => Sum.inl true
      | OpenRes.othererr => Sum.inr GotoRes.err
    | FstatRes.enoent =>
      if stDir then
        match e.openRes with
        | OpenRes.opened => Sum.inr (GotoRes.descended e.name)
        | OpenRes.enoent => Sum.inl stDir
        | OpenRes.othererr => Sum.inr GotoRes.err
      else Sum.inl stDir

/-- Embedding of the `readdir` scan of `goto_next_dir` (cgroup.c:395-442)
over the entry list of the current directory: iterate `gotoStep` until the
loop returns or the entries are exhausted (`return 1`, no subdirectory). -/
def gotoNextDirScan : Bool → List DEnt → GotoRes
  | _, [] => GotoRes.nodirs
  | stDir, e :: rest =>
    match gotoStep stDir e with
    | Sum.inl st2 => gotoNextDirScan st2 rest
    | Sum.inr r => r

lemma gotoStep_ghost (st : Bool) (g : DEnt) (hf : g.fstatRes = FstatRes.enoent)
    (ho : g.openRes = OpenRes.enoent) : gotoStep st g = Sum.inl st := by
  rw [gotoStep]
  by_cases hn : g.name = "." ∨ g.name = ".."
  · rw [if_pos hn]
  · rw [if_neg hn, hf]
    dsimp only
    by_cases hst : st
    · rw [if_pos hst, ho]
    · rw [if_neg hst]

lemma gotoNextDirScan_ghost (g : DEnt) (hf : g.fstatRes = FstatRes.enoent)
    (ho : g.openRes = OpenRes.enoent) :
    ∀ (pre : List DEnt) (st : Bool) (post : List DEnt),
    gotoNextDirScan st (pre ++ g :: post) = gotoNextDirScan st (pre ++ post) := by
  intro pre
  induction pre with
  | nil =>
    intro st post
    show gotoNextDirScan st (g :: post) = gotoNextDirScan st post
    rw [gotoNextDirScan, gotoStep_ghost st g hf ho]
  | cons e pre2 ih =>
    intro st post
    rw [List.cons_append, List.cons_append, gotoNextDirScan, gotoNextDirScan]
    cases hs : gotoStep st e with
    | inl st2 => exact ih st2 post
    | inr r => rfl

lemma gotoStep_err (st : Bool) (e : DEnt) (h : gotoStep st e = Sum.inr GotoRes.err) :
    e.openRes = OpenRes.othererr := by
  rw [gotoStep] at h
  by_cases hn : e.name = "." ∨ e.name = ".."
  · rw [if_pos hn] at h
    exact absurd h (by simp)
  · rw [if_neg hn] at h
    cases hf : e.fstatRes <;> rw [hf] at h <;> dsimp only at h
    · cases ho : e.openRes <;> rw [ho] at h <;> first | rfl | exact absurd h (by simp)
    · exact absurd h (by simp)
    · by_cases hst : st
      · rw [if_pos hst] at h
        cases ho : e.openRes <;> rw [ho] at h <;> first | rfl | exact absurd h (by simp)
      · rw [if_neg hst] at h
        exact absurd h (by simp)
    · exact absurd h (by simp)

lemma gotoNextDirScan_no_err :
    ∀ (ents : List DEnt) (st : Bool), (∀ e ∈ ents, e.openRes ≠ OpenRes.othererr) →
    gotoNextDirScan st ents ≠ GotoRes.err := by
  intro ents
  induction ents with
  | nil => intro st _; simp [gotoNextDirScan]
  | cons e rest ih =>
    intro st hok
    rw [gotoNextDirScan]
    cases hs : gotoStep st e with
    | inl st2 => exact ih st2 (fun d hd => hok d (List.mem_cons_of_mem _ hd))
    | inr r =>
      intro hr
      subst hr
      exact hok e (List.mem_cons_self e rest) (gotoStep_err st e hs)

/-- C10: a directory entry that disappears between enumeration and
inspection is a benign race for `goto_next_dir`: an entry whose `fstatat`
and `openat` both report `ENOENT` is invisible to the scan wherever it
occurs (the result equals the scan without it); an entry successfully
statted as a directory whose `openat` then reports `ENOENT` is skipped and
scanning continues; the scan can only abort with an error if some entry's
`openat` fails with a non-`ENOENT` errno, and such a failure on a statted
directory entry does abort it. -/
theorem goto_next_dir_enoent_race (g : DEnt) :
    (g.fstatRes = FstatRes.enoent → g.openRes = OpenRes.enoent →
      ∀ (pre : List DEnt) (st : Bool) (post : List DEnt),
      gotoNextDirScan st (pre ++ g :: post) = gotoNextDirScan st (pre ++ post))
    ∧ (g.fstatRes = FstatRes.okDir → g.openRes = OpenRes.enoent →
      ¬(g.name = "." ∨ g.name = "..") →
      ∀ (post : List DEnt) (st : Bool),
      gotoNextDirScan st (g :: post) = gotoNextDirScan true post)
    ∧ (∀ (ents : List DEnt) (st : Bool), (∀ e ∈ ents, e.openRes ≠ OpenRes.othererr) →
      gotoNextDirScan st ents ≠ GotoRes.err)
    ∧ (g.fstatRes = FstatRes.okDir → g.openRes = OpenRes.othererr →
      ¬(g.name = "." ∨ g.name = "..") →
      ∀ (post : List DEnt) (st : Bool), gotoNextDirScan st (g :: post) = GotoRes.err) := by
  refine ⟨gotoNextDirScan_ghost g, ?_, fun ents st h => gotoNextDirScan_no_err ents st h, ?_⟩
  · intro hf ho hn post st
    have hstep : gotoStep st g = Sum.inl true := by
      rw [gotoStep, if_neg hn, hf]
      dsimp only
      rw [ho]
    rw [gotoNextDirScan, hstep]
  · intro hf ho hn post st
    have hstep : gotoStep st g = Sum.inr GotoRes.err := by
      rw [gotoStep, if_neg hn, hf]
      dsimp only
      rw [ho]
    rw [gotoNextDirScan, hstep]

/-- Witness for C10: an entry that vanished between enumeration and
inspection (`fstatat` and `openat` both `ENOENT`) is invisible: the scan
still descends into the healthy subdirectory `sub` listed after it. -/
theorem goto_next_dir_enoent_race_witness :
    gotoNextDirScan false [⟨"gone", FstatRes.enoent, OpenRes.enoent⟩,
        ⟨"sub", FstatRes.okDir, OpenRes.opened⟩]
      = gotoNextDirScan false [⟨"sub", FstatRes.okDir, OpenRes.opened⟩]
    ∧ gotoNextDirScan false [⟨"sub", FstatRes.okDir, OpenRes.opened⟩]
      = GotoRes.descended "sub" := by
  have h := (goto_next_dir_enoent_race ⟨"gone", FstatRes.enoent, OpenRes.enoent⟩).1 rfl rfl
    [] false [⟨"sub", FstatRes.okDir, OpenRes.opened⟩]
  exact ⟨by simpa using h, by decide⟩

/-! ## Tree removal: `rm_tree` (cgroup.c:444-509) -/

/-- One directory of the filesystem snapshot `rm_tree` walks: its parent
path, its name, and its identity as reported by `fstat` (`st_dev`,
`st_ino`).  The whole filesystem is a list of these; enumeration order
within a directory is list order (the C code takes whatever `readdir`
yields first). -/
structure Dirent where
  parent : List String
  name : String
  dev : ℕ
  ino : ℕ
deriving DecidableEq

/-- Filesystem snapshot: the set of directories, in enumeration order. -/
abbrev Fs := List Dirent

/-- Absolute path of a directory entry. -/
def entPath (e : Dirent) : List String := e.parent ++ [e.name]

/-- First subdirectory of `p`, in enumeration order — the entry
`goto_next_dir` descends into (race-free run: `fstatat`/`openat` succeed). -/
def firstSubdir (fs : Fs) (p : List String) : Option Dirent :=
  fs.find? (fun e => e.parent == p)

/-- Identity `(st_dev, st_ino)` of the directory at path `p`, as `fstat`
reports it. -/
def statOf (fs : Fs) (p : List String) : Option (ℕ × ℕ) :=
  (fs.find? (fun e => entPath e == p)).map (fun e => (e.dev, e.ino))

/-- Effect of a successful `rmdir`/`unlinkat` of the directory at `p`. -/
def removeDir (fs : Fs) (p : List String) : Fs :=
  fs.filter (fun e => !(entPath e == p))

/-- Embedding of the walk loop of `rm_tree` (cgroup.c:465-499) on a race-free
filesystem (every `fstat`, `openat("..")` and `rmdir_retry` of an
already-emptied directory succeeds, so no error exits are taken).  `cur` is
the directory `fd` refers to, `nm` the C `name` buffer (`""` when cleared),
`level` the C `level` counter; `rootIno` is `st.st_ino` of the root taken at
entry.  Mirrors the C control flow: descend into the first subdirectory;
otherwise compare the current inode — inode only, `st_dev` is never read in
the comparison `st.st_ino == pst.st_ino` — against the root inode and stop
if equal; otherwise step up to the parent, remove the vacated directory if
`name` is set, clear `name`, decrement `level`, and exit when `level` drops
below 0.  Returns `(ret, filesystem, directory the loop stopped in, whether
it stopped via the inode comparison)`; `none` is fuel exhaustion. -/
def rmTreeGo (rootIno : ℕ) : ℕ → Fs → List String → String → ℤ →
    Option (ℤ × Fs × List String × Bool)
  | 0, _, _, _, _ => none
  | fuel + 1, fs, cur, nm, level =>
    match firstSubdir fs cur with
    | some e => rmTreeGo rootIno fuel fs (cur ++ [e.name]) e.name (level + 1)
    | none =>
      if ((statOf fs cur).map Prod.snd).getD 0 = rootIno then some (0, fs, cur, true)
      else if level - 1 < 0 then
        some (0, if nm ≠ "" then removeDir fs (cur.dropLast ++ [nm]) else fs,
          cur.dropLast, false)
      else
        rmTreeGo rootIno fuel
          (if nm ≠ "" then removeDir fs (cur.dropLast ++ [nm]) else fs)
          cur.dropLast "" (level - 1)

/-- Embedding of `rm_tree` (cgroup.c:444-509): a missing root (`ENOENT` on
open) returns 0; otherwise run the loop from the root with `name` empty and
`level = 0`, and finally execute the trailing bare `rmdir(path)` on the root
(cgroup.c:506) — it succeeds only if the root is empty by then, and its
result is discarded: the returned code is the loop's `ret` either way. -/
def rm_tree (fuel : ℕ) (fs : Fs) (root : List String) : Option (ℤ × Fs) :=
  match statOf fs root with
  | none => some (0, fs)
  | some st =>
    match rmTreeGo st.2 fuel fs root "" 0 with
    | none => none
    | some (ret, fs2, _, _) =>
      some (ret, if firstSubdir fs2 root = none then removeDir fs2 root else fs2)

/-- Modelled from the spec: the walk loop as claim C2 words it, with the
stop test comparing the full identity — device plus inode — against the
original root, for comparison with `rmTreeGo`.  Identical otherwise. -/
def rmTreeClaimGo (rootId : ℕ × ℕ) : ℕ → Fs → List String → String → ℤ →
    Option (ℤ × Fs × List String × Bool)
  | 0, _, _, _, _ => none
  | fuel + 1, fs, cur, nm, level =>
    match firstSubdir fs cur with
    | some e => rmTreeClaimGo rootId fuel fs (cur ++ [e.name]) e.name (level + 1)
    | none =>
      if (statOf fs cur).getD (0, 0) = rootId then some (0, fs, cur, true)
      else if level - 1 < 0 then
        some (0, if nm ≠ "" then removeDir fs (cur.dropLast ++ [nm]) else fs,
          cur.dropLast, false)
      else
        rmTreeClaimGo rootId fuel
          (if nm ≠ "" then removeDir fs (cur.dropLast ++ [nm]) else fs)
          cur.dropLast "" (level - 1)

/-- Modelled from the spec: `rm_tree` as claim C2 words it (device+inode
root identity), for comparison with `rm_tree`. -/
def rm_tree_claim (fuel : ℕ) (fs : Fs) (root : List String) : Option (ℤ × Fs) :=
  match statOf fs root with
  | none => some (0, fs)
  | some st =>
    match rmTreeClaimGo st fuel fs root "" 0 with
    | none => none
    | some (ret, fs2, _, _) =>
      some (ret, if firstSubdir fs2 root = none then removeDir fs2 root else fs2)

/-- Root directory of the C2 counterexample: device 0, inode 1. -/
def exR : Dirent := ⟨[], "R", 0, 1⟩

/-- Subdirectory of the C2 counterexample: a different device (a mount
point), but the same inode number 1 as the root — inode numbers are only
unique per device. -/
def exA : Dirent := ⟨["R"], "A", 1, 1⟩

/-- The C2 counterexample filesystem: `R` containing `R/A`. -/
def exFs : Fs := [exR, exA]

/-- C2 counterexample: the walk stops at the first directory whose *inode*
equals the root's, even on a different device.  On `R(dev 0, ino 1)`
containing `A(dev 1, ino 1)`, the code descends into `A`, finds `pst.st_ino
== st.st_ino`, breaks immediately and returns 0 with nothing removed (`A`
survives, the final best-effort `rmdir(R)` fails on the non-empty root and
is ignored), whereas under the claim's device-plus-inode identity the walk
would ascend, remove `A` and then the root.  The loop output records the
stop in `R/A`, whose device differs from the root's. -/
theorem rm_tree_dev_counterexample :
    rm_tree 10 exFs ["R"] = some (0, exFs)
    ∧ rm_tree_claim 10 exFs ["R"] = some (0, [])
    ∧ rmTreeGo 1 10 exFs ["R"] "" 0 = some (0, exFs, ["R", "A"], true)
    ∧ statOf exFs ["R", "A"] = some (1, 1)
    ∧ statOf exFs ["R"] = some (0, 1)
    ∧ exA.dev ≠ exR.dev
    ∧ exFs ≠ [] := by
  refine ⟨by decide, by decide, by decide, by decide, by decide, by decide, by decide⟩

lemma rmTreeGo_break_ino (rootIno : ℕ) :
    ∀ fuel fs cur nm level ret fs2 stop,
    rmTreeGo rootIno fuel fs cur nm level = some (ret, fs2, stop, true) →
    ((statOf fs2 stop).map Prod.snd).getD 0 = rootIno := by
  intro fuel
  induction fuel with
  | zero => intro fs cur nm level ret fs2 stop h; exact absurd h (by simp [rmTreeGo])
  | succ fuel ih =>
    intro fs cur nm level ret fs2 stop h
    rw [rmTreeGo] at h
    cases hfs : firstSubdir fs cur with
    | some e =>
      rw [hfs] at h
      exact ih fs (cur ++ [e.name]) e.name (level + 1) ret fs2 stop h
    | none =>
      rw [hfs] at h
      dsimp only at h
      by_cases hino : ((statOf fs cur).map Prod.snd).getD 0 = rootIno
      · rw [if_pos hino] at h
        simp only [Option.some.injEq, Prod.mk.injEq] at h
        obtain ⟨_, rfl, rfl, _⟩ := h
        exact hino
      · rw [if_neg hino] at h
        by_cases hlev : level - 1 < 0
        · rw [if_pos hlev] at h
          simp at h
        · rw [if_neg hlev] at h
          exact ih _ cur.dropLast "" (level - 1) ret fs2 stop h

/-- C2 amended: ascent and removal repeat until the walk returns to a
directory whose *inode* matches the original root's inode — the device is
not part of the comparison (`st.st_ino == pst.st_ino`, cgroup.c:479) — and
whenever the loop stops via that comparison, the directory it stopped in
has the root's inode; the root itself is then removed best-effort by a bare
`rmdir(path)` whose failure is not propagated: the code `rm_tree` returns
is the loop's result, unchanged by whether that final removal succeeded. -/
theorem rm_tree_amended :
    (∀ (rootIno fuel : ℕ) (fs : Fs) (cur : List String) (nm : String) (level ret : ℤ)
      (fs2 : Fs) (stop : List String),
      rmTreeGo rootIno fuel fs cur nm level = some (ret, fs2, stop, true) →
      ((statOf fs2 stop).map Prod.snd).getD 0 = rootIno)
    ∧ (∀ (fuel : ℕ) (fs : Fs) (root : List String),
      (rm_tree fuel fs root).map Prod.fst
        = match statOf fs root with
          | none => some 0
          | some st => (rmTreeGo st.2 fuel fs root "" 0).map (fun x => x.1)) := by
  refine ⟨fun rootIno fuel => rmTreeGo_break_ino rootIno fuel, ?_⟩
  intro fuel fs root
  rw [rm_tree]
  cases hst : statOf fs root with
  | none => rfl
  | some st =>
    cases hgo : rmTreeGo st.2 fuel fs root "" 0 with
    | none => simp [hgo]
    | some out =>
      obtain ⟨ret, fs2, stop, flag⟩ := out
      simp [hgo]

/-- Witness for C2 (amended): on the counterexample run the loop stopped
via the inode comparison in `R/A`, and indeed that directory's inode is the
root inode 1; and on a healthy tree `R` with children `B`, `C` of distinct
inodes the walk removes everything and returns 0. -/
theorem rm_tree_amended_witness :
    ((statOf exFs ["R", "A"]).map Prod.snd).getD 0 = 1
    ∧ rm_tree 10 [⟨[], "R", 0, 1⟩, ⟨["R"], "B", 0, 2⟩, ⟨["R"], "C", 0, 3⟩] ["R"]
      = some (0, []) := by
  refine ⟨rm_tree_amended.1 1 10 exFs ["R"] "" 0 0 exFs ["R", "A"] (by decide), by decide⟩

/-! ## Bind-mount namespace setup: `cg_bindmount_cgroup` (cgroup.c:1100-1188) -/

/-- Outcome of `cg_get_ctl` for one controller in `cg_bindmount_cgroup`:
`-1` (mount-table scan error, `goto err`), success, or "no mount found"
(return 1, which only the `err:` check at the end can observe). -/
inductive GetCtlRes where
  | err
  | okMounted
  | notMounted
deriving DecidableEq

/-- One controller of `cg_ctl_map` as seen by the `cg_bindmount_cgroup`
loop (cgroup.c:1131-1169), together with the outcomes of the system calls
made for it: the `MS_SLAVE` remount of the host mount, the
`do_bindmount` of the container's cgroup directory onto
`<ve_root><mnt>`, and `create_perctl_symlink`. -/
structure BCtl where
  getRes : GetCtlRes
  isPrvt : Bool
  isSystemd : Bool
  mnt : String
  inList : Bool
  slaveOk : Bool
  bindOk : Bool
  symlinkOk : Bool
deriving DecidableEq

/-- Modelled from the spec: `vzerror.h` is not under `src/`, so the numeral
of `VZCTL_E_CREATE_DIR` is unknown; §7 only requires failure codes to be
nonzero.  A distinct nonzero stand-in. -/
def E_CREATE_DIR : ℤ := 11

/-- Modelled from the spec: nonzero stand-in for `VZCTL_E_RESOURCE`. -/
def E_RESOURCE : ℤ := 12

/-- Modelled from the spec: nonzero stand-in for `VZCTL_E_SYSTEM`. -/
def E_SYSTEM : ℤ := 13

/-- Embedding of the controller loop of `cg_bindmount_cgroup`
(cgroup.c:1131-1169).  Arguments: remaining controllers, the current value
of the C `ret` variable (live across `continue`, so a trailing
not-mounted controller leaves 1 in it), the `head` string list of
mount paths recorded so far (recorded after the slave remount, before the
bind), and the list of container-root paths actually bind-mounted so far
(each written `mnt`, standing for `<ve_root><mnt>`).
Returns `(ret, head, binds)` at the `err:` label.  A `cg_get_ctl` error
returns `-1`; private controllers, non-systemd controllers absent from
`/proc/cgroups`, and already-processed mount paths are skipped with `ret =
0`; a slave-remount failure returns `VZCTL_E_SYSTEM`, a bindmount failure
`VZCTL_E_RESOURCE` (with the path already in `head` but not bound), a
symlink failure `-1`. -/
def bmLoop : List BCtl → ℤ → List String → List String → ℤ × List String × List String
  | [], ret, head, binds => (ret, head, binds)
  | c :: rest, _, head, binds =>
    match c.getRes with
    | GetCtlRes.err => (-1, head, binds)
    | GetCtlRes.notMounted => bmLoop rest 1 head binds
    | GetCtlRes.okMounted =>
      if c.isPrvt = true then bmLoop rest 0 head binds
      else if c.isSystemd = false ∧ c.inList = false then bmLoop rest 0 head binds
      else if c.mnt ∈ head then bmLoop rest 0 head binds
      else if c.slaveOk = false then (E_SYSTEM, head, binds)
      else if c.bindOk = false then (E_RESOURCE, head ++ [c.mnt], binds)
      else if c.symlinkOk = false then (-1, head ++ [c.mnt], binds ++ [c.mnt])
      else bmLoop rest 0 (head ++ [c.mnt]) (binds ++ [c.mnt])

/-- Embedding of `cg_bindmount_cgroup` (cgroup.c:1100-1188).  The five
booleans are the outcomes of the skeleton phase — `make_dir(<root>/sys)`,
`mount(sysfs)`, `make_dir(<root>/sys/fs/cgroup)`, `mount(tmpfs)` — and of
`get_cgroups` reading `/proc/cgroups`; these failures are early `return`s
that bypass the `err:` rollback (cgroup.c:1111-1129).  Only a nonzero
`ret` after the controller loop runs the rollback, which unmounts each
recorded `head` path under the container root, then the tmpfs, then the
sysfs, in that order (cgroup.c:1170-1183).  Returns `(ret, mount points
remaining under the container root in mount order, unmount calls performed
in order)`; the skeleton mounts are written `"sys"` and `"sys/fs/cgroup"`,
standing for `<ve_root>/sys` and `<ve_root>/sys/fs/cgroup`. -/
def cg_bindmount_cgroup (mkdirSysOk mountSysfsOk mkdirCgOk mountTmpfsOk getCgroupsOk : Bool)
    (ctls : List BCtl) : ℤ × List String × List String :=
  if mkdirSysOk = false then (E_CREATE_DIR, [], [])
  else if mountSysfsOk = false then (E_RESOURCE, [], [])
  else if mkdirCgOk = false then (E_RESOURCE, ["sys"], [])
  else if mountTmpfsOk = false then (E_RESOURCE, ["sys"], [])
  else if getCgroupsOk = false then (E_SYSTEM, ["sys", "sys/fs/cgroup"], [])
  else if (bmLoop ctls 0 [] []).1 ≠ 0 then
    ((bmLoop ctls 0 [] []).1,
      (["sys", "sys/fs/cgroup"] ++ (bmLoop ctls 0 [] []).2.2).filter
        (fun p => decide (p ∉ (bmLoop ctls 0 [] []).2.1 ++ ["sys/fs/cgroup", "sys"])),
      (bmLoop ctls 0 [] []).2.1 ++ ["sys/fs/cgroup", "sys"])
  else (0, ["sys", "sys/fs/cgroup"] ++ (bmLoop ctls 0 [] []).2.2, [])

/-- C7 counterexample: a failure mounting the tmpfs skeleton at
`<root>/sys/fs/cgroup` (cgroup.c:1123-1125) is an early `return` that does
NOT unmount the sysfs already mounted at `<root>/sys`: one mount point
remains under the container root and no unmount is performed, contradicting
the claim that a skeleton failure is unwound by unmounting whatever was
already mounted. -/
theorem cg_bindmount_skeleton_counterexample :
    cg_bindmount_cgroup true true true false true [] = (E_RESOURCE, ["sys"], [])
    ∧ (["sys"] : List String) ≠ [] := by
  exact ⟨rfl, by decide⟩

lemma filter_not_mem_nil {α : Type} (l : List α) (t : List α) [DecidableEq α]
    (h : ∀ a ∈ l, a ∈ t) : l.filter (fun a => decide (a ∉ t)) = [] := by
  induction l with
  | nil => rfl
  | cons a l2 ih =>
    rw [List.filter_cons]
    have ha : a ∈ t := h a (List.mem_cons_self a l2)
    simp only [ha, not_true_eq_false, decide_False]
    exact ih (fun b hb => h b (List.mem_cons_of_mem _ hb))

lemma bmLoop_sublist :
    ∀ (ctls : List BCtl) (r0 : ℤ) (head binds : List String),
    (∀ b ∈ binds, b ∈ head) →
    (∀ b ∈ (bmLoop ctls r0 head binds).2.2, b ∈ (bmLoop ctls r0 head binds).2.1)
    ∧ (∀ x ∈ head, x ∈ (bmLoop ctls r0 head binds).2.1) := by
  intro ctls
  induction ctls with
  | nil => intro r0 head binds hsub; exact ⟨hsub, fun x hx => hx⟩
  | cons c rest ih =>
    intro r0 head binds hsub
    rw [bmLoop]
    cases hg : c.getRes with
    | err => exact ⟨hsub, fun x hx => hx⟩
    | notMounted => exact ih 1 head binds hsub
    | okMounted =>
      dsimp only
      by_cases h1 : c.isPrvt = true
      · rw [if_pos h1]; exact ih 0 head binds hsub
      · rw [if_neg h1]
        by_cases h2 : c.isSystemd = false ∧ c.inList = false
        · rw [if_pos h2]; exact ih 0 head binds hsub
        · rw [if_neg h2]
          by_cases h3 : c.mnt ∈ head
          · rw [if_pos h3]; exact ih 0 head binds hsub
          · rw [if_neg h3]
            by_cases h4 : c.slaveOk = false
            · rw [if_pos h4]; exact ⟨hsub, fun x hx => hx⟩
            · rw [if_neg h4]
              by_cases h5 : c.bindOk = false
              · rw [if_pos h5]
                refine ⟨?_, ?_⟩
                · intro b hb
                  exact List.mem_append.mpr (Or.inl (hsub b hb))
                · intro x hx
                  exact List.mem_append.mpr (Or.inl hx)
              · rw [if_neg h5]
                by_cases h6 : c.symlinkOk = false
                · rw [if_pos h6]
                  refine ⟨?_, ?_⟩
                  · intro b hb
                    rcases List.mem_append.mp hb with hb2 | hb2
                    · exact List.mem_append.mpr (Or.inl (hsub b hb2))
                    · exact List.mem_append.mpr (Or.inr hb2)
                  · intro x hx
                    exact List.mem_append.mpr (Or.inl hx)
                · rw [if_neg h6]
                  have hsub2 : ∀ b ∈ binds ++ [c.mnt], b ∈ head ++ [c.mnt] := by
                    intro b hb
                    rcases List.mem_append.mp hb with hb2 | hb2
                    · exact List.mem_append.mpr (Or.inl (hsub b hb2))
                    · exact List.mem_append.mpr (Or.inr hb2)
                  obtain ⟨q1, q2⟩ := ih 0 (head ++ [c.mnt]) (binds ++ [c.mnt]) hsub2
                  refine ⟨q1, ?_⟩
                  intro x hx
                  exact q2 x (List.mem_append.mpr (Or.inl hx))

/-- C7 amended: the early skeleton/`get_cgroups` failures of
`cg_bindmount_cgroup` return without any unwinding (a tmpfs-mount failure
leaves the sysfs mounted; a `/proc/cgroups` failure leaves sysfs and tmpfs
mounted), while any nonzero result of the controller-processing loop
triggers the full rollback: every container-root path recorded so far is
unmounted in recording order, then the skeleton tmpfs, then the outer
sysfs, in that order, after which zero mount points remain under the
container root; with a clean loop nothing is unmounted and the skeleton
plus every bound controller path remain mounted. -/
theorem cg_bindmount_amended (ctls : List BCtl) :
    (∀ ret head binds, bmLoop ctls 0 [] [] = (ret, head, binds) → ret ≠ 0 →
      cg_bindmount_cgroup true true true true true ctls
        = (ret, [], head ++ ["sys/fs/cgroup", "sys"]))
    ∧ (∀ ret head binds, bmLoop ctls 0 [] [] = (ret, head, binds) → ret = 0 →
      cg_bindmount_cgroup true true true true true ctls
        = (0, ["sys", "sys/fs/cgroup"] ++ binds, []))
    ∧ cg_bindmount_cgroup true true true false true ctls = (E_RESOURCE, ["sys"], [])
    ∧ cg_bindmount_cgroup true true true true false ctls
      = (E_SYSTEM, ["sys", "sys/fs/cgroup"], []) := by
  refine ⟨?_, ?_, rfl, rfl⟩
  · intro ret head binds hrun hret
    have hsubs := bmLoop_sublist ctls 0 [] [] (by intro b hb; exact absurd hb (by simp))
    rw [hrun] at hsubs
    rw [cg_bindmount_cgroup]
    simp only [Bool.true_eq_false, if_false]
    rw [hrun]
    dsimp only
    rw [if_pos hret]
    refine congrArg (fun m => (ret, m, head ++ ["sys/fs/cgroup", "sys"])) ?_
    refine filter_not_mem_nil _ _ ?_
    intro a ha
    rcases List.mem_append.mp ha with h1 | h2
    · rcases List.mem_cons.mp h1 with rfl | h1b
      · exact List.mem_append.mpr (Or.inr (by simp))
      · have : a = "sys/fs/cgroup" := by simpa using h1b
        exact List.mem_append.mpr (Or.inr (by simp [this]))
    · exact List.mem_append.mpr (Or.inl (hsubs.1 a h2))
  · intro ret head binds hrun hret
    rw [cg_bindmount_cgroup]
    simp only [Bool.true_eq_false, if_false]
    rw [hrun]
    dsimp only
    rw [if_neg (by simp [hret])]

/-- Controller table for the C7 witness: five active shared controllers on
distinct mount paths, the third of which fails its bindmount. -/
def bmEx : List BCtl :=
  [⟨GetCtlRes.okMounted, false, false, "m1", true, true, true, true⟩,
   ⟨GetCtlRes.okMounted, false, false, "m2", true, true, true, true⟩,
   ⟨GetCtlRes.okMounted, false, false, "m3", true, true, false, true⟩,
   ⟨GetCtlRes.okMounted, false, false, "m4", true, true, true, true⟩,
   ⟨GetCtlRes.okMounted, false, false, "m5", true, true, true, true⟩]

/-- Witness for C7 (amended): bind-mount setup failing on the 3rd of 5
controllers rolls back by unmounting the recorded controller paths, then
the tmpfs, then the sysfs, and leaves zero mount points under the container
root. -/
theorem cg_bindmount_amended_witness :
    cg_bindmount_cgroup true true true true true bmEx
      = (E_RESOURCE, [], ["m1", "m2", "m3", "sys/fs/cgroup", "sys"]) := by
  have h := (cg_bindmount_amended bmEx).1 E_RESOURCE ["m1", "m2", "m3"] ["m1", "m2"]
    (by decide) (by decide)
  simpa using h

end Cgroup
